import Mathlib

/-!
A verification development for the lexical-analysis stage of rs-php-rt
(`src/compiler/src/syntax/lex/mod.rs`).  The recognizer set and the driver
`eat` are translated directly from `mod.rs`.  The cursor (`cursor.rs`), the
token constructor macro (`token.rs`) and the keyword vocabulary
(`syntax/ast/keyword.rs`) are not part of the given sources; they are
modelled from the specification (spec.md §3, §4.1, §6), as noted on each
such definition.
-/

set_option maxRecDepth 4000

/-- Modelled from the spec: `cursor.rs` exposes a distinguished end-of-file
sentinel character `END_OF_FILE` returned by lookahead past the end of the
buffer (spec §4.1, glossary).  We use the NUL character. -/
def END_OF_FILE : Char := Char.ofNat 0

/-- Modelled from the spec: the cursor owns a read-only view of the source
text plus the current scan position (spec §2, §4.1). -/
structure Cursor where
  input : List Char
  pos : Nat
deriving DecidableEq, Repr

/-- Modelled from the spec: `nth_char(i)` returns the character at offset `i`
from the current position without consuming; the `END_OF_FILE` sentinel past
the end of the buffer (spec §4.1). -/
def Cursor.nth_char (c : Cursor) (i : Nat) : Char :=
  c.input.getD (c.pos + i) END_OF_FILE

/-- Modelled from the spec: lookahead at offset 0 (spec §4.1). -/
def Cursor.first (c : Cursor) : Char := c.nth_char 0

/-- Modelled from the spec: lookahead at offset 1 (spec §4.1). -/
def Cursor.second (c : Cursor) : Char := c.nth_char 1

/-- The current offset, as used for token spans (`get_pos` in `mod.rs`). -/
def Cursor.get_pos (c : Cursor) : Nat := c.pos

/-- Modelled from the spec: consume one character, or nothing when already
exhausted (the cursor form of `advance()`/`peek()`, spec §4.1). -/
def Cursor.bump (c : Cursor) : Cursor :=
  if c.pos < c.input.length then ⟨c.input, c.pos + 1⟩ else c

/-- Modelled from the spec: `peek()` consumes one character and returns it,
or signals end-of-file (`advance()` in spec §4.1; `eat_string` in `mod.rs`
unwraps its returned character). -/
def Cursor.peek (c : Cursor) : Option Char × Cursor :=
  if h : c.pos < c.input.length then
    (some (c.input.get ⟨c.pos, h⟩), ⟨c.input, c.pos + 1⟩)
  else (none, c)

/-- Modelled from the spec: `peek_inc(i)` commits a lookahead match by
advancing past lookahead offset `i`, that is by `i + 1` characters, clamped
at the end of the buffer.  This multi-character advance (`advance_by` in
spec §4.1) is the only semantics consistent with the spec's testable
properties (§8): `"if "` is lexed as `Keyword(if)` then `Whitespace`
(`eat_keyword` matches `"if"` at loop index 1 and calls `peek_inc(1)`), and
`"::"` yields one accessor token (`eat_value_reserved` calls
`peek_inc(1)`). -/
def Cursor.peek_inc (c : Cursor) (i : Nat) : Cursor :=
  ⟨c.input, min (c.pos + i + 1) c.input.length⟩

/-- Modelled from the spec: `consume_while(predicate)` repeatedly consumes
characters while the predicate holds of the current character, returning the
consumed run; end-of-file stops the run (spec §4.1, §7). -/
def Cursor.eat_while (c : Cursor) (p : Char → Bool) : String × Cursor :=
  let run := (c.input.drop c.pos).takeWhile p
  (String.mk run, ⟨c.input, c.pos + run.length⟩)

/-- Modelled from the spec: the keyword vocabulary is an external collaborator
(`syntax/ast/keyword.rs`, not among the given sources) exposing a lookup
oracle and a maximum length (spec §1, §6).  We fix a representative PHP
vocabulary containing `if` (used by the spec's own examples, §8). -/
inductive Keyword where
  | If | Else | While | For | Function | Return
deriving DecidableEq, Repr

/-- Modelled from the spec: the keys of the keyword vocabulary. -/
def kwEntries : List (List Char × Keyword) :=
  [(['i', 'f'], Keyword.If),
   (['e', 'l', 's', 'e'], Keyword.Else),
   (['w', 'h', 'i', 'l', 'e'], Keyword.While),
   (['f', 'o', 'r'], Keyword.For),
   (['f', 'u', 'n', 'c', 't', 'i', 'o', 'n'], Keyword.Function),
   (['r', 'e', 't', 'u', 'r', 'n'], Keyword.Return)]

/-- Modelled from the spec: `Keyword::from_str`, the vocabulary lookup oracle
(`parse(candidate_text) -> keyword-or-not-a-keyword`, spec §6). -/
def Keyword.from_str (s : List Char) : Option Keyword :=
  (kwEntries.find? (fun e => e.1 = s)).map (fun e => e.2)

/-- Modelled from the spec: the constant upper bound on keyword length
(spec §6); 8 is the length of the longest vocabulary entry `function`. -/
def MAX_KEYWORD_LENGTH : Nat := 8

/-- `AccessType` from `token.rs` (modelled from the spec §3: currently only
the static-member accessor `::`). -/
inductive AccessType where
  | StaticMember
deriving DecidableEq, Repr

/-- `Numeric` from `token.rs`; `eat_number` always produces `Int(0)`
(`mod.rs` line 160). -/
inductive Numeric where
  | Int (value : Int)
deriving DecidableEq, Repr

/-- `StringType` from `token.rs` (spec §3: `Double | Single`; the backtick
delimiter has no variant). -/
inductive StringType where
  | Double | Single
deriving DecidableEq, Repr

/-- `TokenType` from `token.rs`, modelled from the spec §3 and the variants
used in `mod.rs`. -/
inductive TokenType where
  | Whitespace
  | Comment
  | Operator
  | Keyword (kw : Keyword)
  | Boolean
  | Identifier
  | NumericalLit (n : Numeric)
  | StringLit (v : StringType)
  | Accessor (a : AccessType)
  | Colon
  | LeftBracket | RightBracket
  | LeftParenthesis | RightParenthesis
  | LeftBrace | RightBrace
  | EOS | Comma | Backslash | Dot | Variable | QuestionMark
deriving DecidableEq, Repr

/-- Modelled from the spec: a token is a span (start/end offsets), a kind and
an optional lexeme payload (spec §3); the `token!` macro of `token.rs`
constructs it from `start_pos`, `get_pos()`, the kind and the payload.
`stop` is the source's `end` (a reserved word here). -/
structure Token where
  start : Nat
  stop : Nat
  kind : TokenType
  value : Option String
deriving DecidableEq, Repr

/-- Result of one recognizer attempt: a match with the advanced cursor, a
non-error no-match (spec §7), a Rust panic, or exhausted recursion fuel. -/
inductive RecRes (α : Type) where
  | matched : α → Cursor → RecRes α
  | noMatch : RecRes α
  | panicked : RecRes α
  | fuelOut : RecRes α
deriving DecidableEq, Repr

/-- Result of the driver `eat` in `mod.rs`: a token (Rust
`Ok(Some(token))`), the positional error of lines 91-99 (with the cursor
after its `peek()`), a panic, or exhausted fuel. -/
inductive EatResult where
  | tok : Token → Cursor → EatResult
  | err : Nat → Nat → Cursor → EatResult
  | panicked : EatResult
  | fuelOut : EatResult
deriving DecidableEq, Repr

/-- `eat_whitespace` (`mod.rs` lines 133-140): a maximal whitespace run;
empty run means no match. -/
def eat_whitespace (c : Cursor) : RecRes String :=
  let r := c.eat_while Char.isWhitespace
  if r.1.isEmpty then RecRes.noMatch else RecRes.matched r.1 r.2

/-- Result of the block-comment loop: the consumed run and cursor, a panic,
or exhausted fuel. -/
inductive CRes where
  | ok : List Char → Cursor → CRes
  | panicked : CRes
  | fuelOut : CRes
deriving DecidableEq, Repr

/-- The `eat_while_cursor` call of `eat_comment` (`mod.rs` lines 110-121)
with its closure inlined: consume a character, and stop only when it is `*`
and the cursor then sees `/`, in which case `cursor.eat()` consumes a whole
token starting at the `/` (its result is discarded, the cursor advance is
kept).  Modelled from the spec for `cursor.rs`: each consumed character is
accumulated into the returned run, the nested `eat` is passed in as `eatN`,
and iteration fuel makes the loop structural. -/
def block_comment_loop (eatN : Cursor → EatResult) : Nat → Cursor → CRes
  | 0, _ => CRes.fuelOut
  | k + 1, c =>
    match c.peek with
    | (none, c1) => CRes.ok [] c1
    | (some ch, c1) =>
      if ch = '*' then
        if c1.first = '/' then
          match eatN c1 with
          | EatResult.tok _ c2 => CRes.ok [ch] c2
          | EatResult.err _ _ c2 => CRes.ok [ch] c2
          | EatResult.panicked => CRes.panicked
          | EatResult.fuelOut => CRes.fuelOut
        else
          match block_comment_loop eatN k c1 with
          | CRes.ok rest c2 => CRes.ok (ch :: rest) c2
          | r => r
      else
        match block_comment_loop eatN k c1 with
        | CRes.ok rest c2 => CRes.ok (ch :: rest) c2
        | r => r

/-- `eat_comment` (`mod.rs` lines 102-129): `//` consumes to (not including)
the next newline; `/*` runs the block-comment loop; a lone `/` is not a
comment. -/
def eat_comment (eatN : Cursor → EatResult) (c : Cursor) : RecRes String :=
  if c.first = '/' then
    if c.second = '/' then
      let r := c.eat_while (fun ch => ch != '\n')
      RecRes.matched r.1 r.2
    else if c.second = '*' then
      match block_comment_loop eatN (c.input.length + 1 - c.pos) c with
      | CRes.ok cs c2 => RecRes.matched (String.mk cs) c2
      | CRes.panicked => RecRes.panicked
      | CRes.fuelOut => RecRes.fuelOut
    else RecRes.noMatch
  else RecRes.noMatch

/-- The single-character operator set of `eat_operator` (`mod.rs` line
187). -/
def isSingleOperator (ch : Char) : Bool :=
  ch = '+' || ch = '-' || ch = '*' || ch = '/' || ch = '%' || ch = '=' ||
  ch = '<' || ch = '>' || ch = '&' || ch = '|' || ch = '^' || ch = '~'

/-- `eat_operator` (`mod.rs` lines 185-209): a single-character operator is
consumed with `peek()` (the consumed character is returned via `get_prev`);
`or` and `and` are matched by pure lookahead on the following characters and
committed with `peek_inc`. -/
def eat_operator (c : Cursor) : RecRes String :=
  if isSingleOperator c.first then
    RecRes.matched (String.mk [c.first]) c.bump
  else if c.first = 'o' then
    if c.nth_char 1 = 'r' then RecRes.matched "or" (c.peek_inc 2)
    else RecRes.noMatch
  else if c.first = 'a' then
    if c.nth_char 1 = 'n' ∧ c.nth_char 2 = 'd' then
      RecRes.matched "and" (c.peek_inc 3)
    else RecRes.noMatch
  else RecRes.noMatch

/-- The loop of `eat_keyword` (`mod.rs` lines 167-183): accumulate
`nth_char(i)` into the segment; on a vocabulary hit, commit with
`peek_inc(i)` only when `nth_char(i + 1)` is whitespace, otherwise return
no-match immediately (no longer prefix is tried). -/
def eat_keyword_loop (c : Cursor) : Nat → Nat → List Char → RecRes Keyword
  | 0, _, _ => RecRes.noMatch
  | fuel + 1, i, seg =>
    let seg2 := seg ++ [c.nth_char i]
    match Keyword.from_str seg2 with
    | some kw =>
      if (c.nth_char (i + 1)).isWhitespace then
        RecRes.matched kw (c.peek_inc i)
      else RecRes.noMatch
    | none => eat_keyword_loop c fuel (i + 1) seg2

/-- `eat_keyword` (`mod.rs` lines 166-183). -/
def eat_keyword (c : Cursor) : RecRes Keyword :=
  eat_keyword_loop c MAX_KEYWORD_LENGTH 0 []

/-- The loop of `eat_boolean` (`mod.rs` lines 211-223): `for i in 0..4`,
accumulating `nth_char(i)` and comparing the segment with `true` and
`false`; a hit commits with `peek_inc(i)`. -/
def eat_boolean_loop (c : Cursor) : Nat → Nat → List Char → RecRes String
  | 0, _, _ => RecRes.noMatch
  | fuel + 1, i, seg =>
    let seg2 := seg ++ [c.nth_char i]
    if String.mk seg2 = "true" ∨ String.mk seg2 = "false" then
      RecRes.matched (String.mk seg2) (c.peek_inc i)
    else eat_boolean_loop c fuel (i + 1) seg2

/-- `eat_boolean` (`mod.rs` lines 211-223): the loop bound is 4. -/
def eat_boolean (c : Cursor) : RecRes String :=
  eat_boolean_loop c 4 0 []

/-- `eat_identifier` (`mod.rs` lines 142-150): triggered by `_` or an ASCII
letter; consumes a maximal run of non-whitespace alphanumeric-or-underscore
characters (ASCII alphanumerics here stand for Rust's Unicode
`is_alphanumeric`). -/
def eat_identifier (c : Cursor) : RecRes String :=
  if c.first = '_' ∨ ('a' ≤ c.first ∧ c.first ≤ 'z') ∨
      ('A' ≤ c.first ∧ c.first ≤ 'Z') then
    let r := c.eat_while (fun ch => !ch.isWhitespace && (ch.isAlphanum || ch = '_'))
    RecRes.matched r.1 r.2
  else RecRes.noMatch

/-- `eat_number` (`mod.rs` lines 152-164): triggered by a decimal digit;
consumes a run of digits and dots, and always yields `Int(0)`. -/
def eat_number (c : Cursor) : RecRes Numeric :=
  if '0' ≤ c.first ∧ c.first ≤ '9' then
    let r := c.eat_while (fun ch => ch.isDigit || ch = '.')
    RecRes.matched (Numeric.Int 0) r.2
  else RecRes.noMatch

/-- The backtick character, the third delimiter accepted by `eat_string`'s
entry check. -/
def backtickChar : Char := Char.ofNat 96

/-- `eat_string` (`mod.rs` lines 225-237): entry check for the three quote
characters; `peek()` consumes the opener and its `unwrap` classifies it —
`"` to `Double`, `'` to `Single`, and the remaining arm is Rust's
`unreachable!()`, reached by the backtick and modelled as a panic; the
content is the run of characters differing from the opener. -/
def eat_string (c : Cursor) : RecRes (StringType × String) :=
  if c.first ≠ '"' ∧ c.first ≠ '\'' ∧ c.first ≠ backtickChar then
    RecRes.noMatch
  else
    match c.peek with
    | (none, _) => RecRes.panicked
    | (some f, c1) =>
      if f = '"' then
        let r := c1.eat_while (fun ch => ch != f)
        RecRes.matched (StringType.Double, r.1) r.2
      else if f = '\'' then
        let r := c1.eat_while (fun ch => ch != f)
        RecRes.matched (StringType.Single, r.1) r.2
      else RecRes.panicked

/-- `eat_value_reserved` (`mod.rs` lines 239-255): `::` commits with
`peek_inc(1)` and yields the static-member accessor; a lone `:` is consumed
with `peek()` and yields a colon. -/
def eat_value_reserved (c : Cursor) : RecRes (TokenType × String) :=
  if c.first = ':' then
    if c.second = ':' then
      RecRes.matched (TokenType.Accessor AccessType.StaticMember, "::") (c.peek_inc 1)
    else
      RecRes.matched (TokenType.Colon, ":") c.bump
  else RecRes.noMatch

/-- `eat_reserved` (`mod.rs` lines 257-273): the fixed single-character
punctuation table; it does not consume (the driver `peek()`s afterwards). -/
def eat_reserved (c : Cursor) : RecRes TokenType :=
  match c.first with
  | '[' => RecRes.matched TokenType.LeftBracket c
  | ']' => RecRes.matched TokenType.RightBracket c
  | '(' => RecRes.matched TokenType.LeftParenthesis c
  | ')' => RecRes.matched TokenType.RightParenthesis c
  | '{' => RecRes.matched TokenType.LeftBrace c
  | '}' => RecRes.matched TokenType.RightBrace c
  | ';' => RecRes.matched TokenType.EOS c
  | ',' => RecRes.matched TokenType.Comma c
  | '\\' => RecRes.matched TokenType.Backslash c
  | '.' => RecRes.matched TokenType.Dot c
  | '$' => RecRes.matched TokenType.Variable c
  | '?' => RecRes.matched TokenType.QuestionMark c
  | _ => RecRes.noMatch

/-- The driver `eat` (`mod.rs` lines 25-100), as the literal chain of
recognizer attempts: each non-match falls through to the next recognizer;
a match is wrapped by the `token!` macro into a token spanning from
`start_pos` to `get_pos()` after the attempt; the string and punctuation
branches `peek()` once more before building the token; when nothing matches,
`peek()` then return the positional error.  `fuel` bounds the recursion
depth of `eat` inside block-comment termination (`cursor.eat()` at line
113). -/
def eat : Nat → Cursor → EatResult
  | 0, _ => EatResult.fuelOut
  | n + 1, c =>
    let start_pos := c.get_pos
    match eat_whitespace c with
    | RecRes.matched s c2 =>
      EatResult.tok ⟨start_pos, c2.get_pos, TokenType.Whitespace, some s⟩ c2
    | RecRes.panicked => EatResult.panicked
    | RecRes.fuelOut => EatResult.fuelOut
    | RecRes.noMatch =>
    match eat_comment (eat n) c with
    | RecRes.matched s c2 =>
      EatResult.tok ⟨start_pos, c2.get_pos, TokenType.Comment, some s⟩ c2
    | RecRes.panicked => EatResult.panicked
    | RecRes.fuelOut => EatResult.fuelOut
    | RecRes.noMatch =>
    match eat_operator c with
    | RecRes.matched s c2 =>
      EatResult.tok ⟨start_pos, c2.get_pos, TokenType.Operator, some s⟩ c2
    | RecRes.panicked => EatResult.panicked
    | RecRes.fuelOut => EatResult.fuelOut
    | RecRes.noMatch =>
    match eat_keyword c with
    | RecRes.matched kw c2 =>
      EatResult.tok ⟨start_pos, c2.get_pos, TokenType.Keyword kw, none⟩ c2
    | RecRes.panicked => EatResult.panicked
    | RecRes.fuelOut => EatResult.fuelOut
    | RecRes.noMatch =>
    match eat_boolean c with
    | RecRes.matched s c2 =>
      EatResult.tok ⟨start_pos, c2.get_pos, TokenType.Boolean, some s⟩ c2
    | RecRes.panicked => EatResult.panicked
    | RecRes.fuelOut => EatResult.fuelOut
    | RecRes.noMatch =>
    match eat_identifier c with
    | RecRes.matched s c2 =>
      EatResult.tok ⟨start_pos, c2.get_pos, TokenType.Identifier, some s⟩ c2
    | RecRes.panicked => EatResult.panicked
    | RecRes.fuelOut => EatResult.fuelOut
    | RecRes.noMatch =>
    match eat_number c with
    | RecRes.matched nv c2 =>
      EatResult.tok ⟨start_pos, c2.get_pos, TokenType.NumericalLit nv, none⟩ c2
    | RecRes.panicked => EatResult.panicked
    | RecRes.fuelOut => EatResult.fuelOut
    | RecRes.noMatch =>
    match eat_string c with
    | RecRes.matched vs c2 =>
      let c3 := c2.bump
      EatResult.tok ⟨start_pos, c3.get_pos, TokenType.StringLit vs.1, some vs.2⟩ c3
    | RecRes.panicked => EatResult.panicked
    | RecRes.fuelOut => EatResult.fuelOut
    | RecRes.noMatch =>
    match eat_value_reserved c with
    | RecRes.matched ts c2 =>
      EatResult.tok ⟨start_pos, c2.get_pos, ts.1, some ts.2⟩ c2
    | RecRes.panicked => EatResult.panicked
    | RecRes.fuelOut => EatResult.fuelOut
    | RecRes.noMatch =>
    match eat_reserved c with
    | RecRes.matched tt c2 =>
      let c3 := c2.bump
      EatResult.tok ⟨start_pos, c3.get_pos, tt, none⟩ c3
    | RecRes.panicked => EatResult.panicked
    | RecRes.fuelOut => EatResult.fuelOut
    | RecRes.noMatch =>
      let c3 := c.bump
      EatResult.err start_pos c3.get_pos c3

/-- The `Lexer` wrapper (`mod.rs` lines 276-293): it owns a cursor. -/
structure Lexer where
  cursor : Cursor
deriving DecidableEq, Repr

/-- `Lexer::new` (`mod.rs` line 281). -/
def Lexer.new (script : List Char) : Lexer := ⟨⟨script, 0⟩⟩

/-- `Lexer::next` (`mod.rs` lines 287-293): it forwards `eat`'s result (the
`Ok(None)` branch of the Rust source would require `eat` to return
`Ok(None)`, which no path of `eat` does). -/
def Lexer.next (fuel : Nat) (l : Lexer) : EatResult := eat fuel l.cursor

/-- How a linear lexing session ends: a positional error, a panic, or
exhausted fuel. -/
inductive EndRes where
  | errored : Nat → Nat → EndRes
  | panicked : EndRes
  | fuelOut : EndRes
deriving DecidableEq, Repr

/-- Repeatedly calling the lexer: collect tokens until `eat` stops producing
them, and record how the session ended. -/
def lexAll : Nat → Cursor → List Token × EndRes
  | 0, _ => ([], EndRes.fuelOut)
  | n + 1, c =>
    match eat (n + 1) c with
    | EatResult.tok t c2 =>
      let r := lexAll n c2
      (t :: r.1, r.2)
    | EatResult.err s e _ => ([], EndRes.errored s e)
    | EatResult.panicked => ([], EndRes.panicked)
    | EatResult.fuelOut => ([], EndRes.fuelOut)

/-- Lex a whole script from offset 0 with enough fuel for its length. -/
def lexList (script : List Char) : List Token × EndRes :=
  lexAll (script.length + 2) ⟨script, 0⟩

/-- Map the payload of a recognizer result. -/
def mapRes {α β : Type} (f : α → β) : RecRes α → RecRes β
  | RecRes.matched a c => RecRes.matched (f a) c
  | RecRes.noMatch => RecRes.noMatch
  | RecRes.panicked => RecRes.panicked
  | RecRes.fuelOut => RecRes.fuelOut

/-- The extra `peek()` the driver performs after a successful `eat_string`
(`mod.rs` line 72) and `eat_reserved` (line 87). -/
def postPeek {α : Type} : RecRes α → RecRes α
  | RecRes.matched a c => RecRes.matched a c.bump
  | r => r

/-- The ten recognizer attempts of the driver in their dispatch order
(`mod.rs` lines 28-89): whitespace, comment, operator, keyword, boolean
literal, identifier, number, string, colon and double-colon, single-character
punctuation.  Each attempt yields the token kind and optional lexeme, with
the cursor as advanced by the attempt (including the extra driver `peek()`
for the string and punctuation attempts). -/
def attempts (eatN : Cursor → EatResult) :
    List (Cursor → RecRes (TokenType × Option String)) :=
  [fun c => mapRes (fun s => (TokenType.Whitespace, some s)) (eat_whitespace c),
   fun c => mapRes (fun s => (TokenType.Comment, some s)) (eat_comment eatN c),
   fun c => mapRes (fun s => (TokenType.Operator, some s)) (eat_operator c),
   fun c => mapRes (fun kw => (TokenType.Keyword kw, none)) (eat_keyword c),
   fun c => mapRes (fun s => (TokenType.Boolean, some s)) (eat_boolean c),
   fun c => mapRes (fun s => (TokenType.Identifier, some s)) (eat_identifier c),
   fun c => mapRes (fun nv => (TokenType.NumericalLit nv, none)) (eat_number c),
   fun c => postPeek (mapRes (fun vs => (TokenType.StringLit vs.1, some vs.2)) (eat_string c)),
   fun c => mapRes (fun ts => (ts.1, some ts.2)) (eat_value_reserved c),
   fun c => postPeek (mapRes (fun tt => (tt, none)) (eat_reserved c))]

/-- Try attempts in order: the first one that does not report no-match
decides. -/
def runFirst : List (Cursor → RecRes (TokenType × Option String)) → Cursor →
    RecRes (TokenType × Option String)
  | [], _ => RecRes.noMatch
  | a :: rest, c =>
    match a c with
    | RecRes.noMatch => runFirst rest c
    | r => r

/-- The driver, written as ordered dispatch over the attempt list: the first
attempt to match wins and its result is wrapped into a token spanning from
the position before the attempt to the position after it; if none match, the
positional error is produced after one `peek()`. -/
def dispatchEat (eatN : Cursor → EatResult) (c : Cursor) : EatResult :=
  match runFirst (attempts eatN) c with
  | RecRes.matched tv c2 => EatResult.tok ⟨c.get_pos, c2.get_pos, tv.1, tv.2⟩ c2
  | RecRes.noMatch =>
    let c3 := c.bump
    EatResult.err c.get_pos c3.get_pos c3
  | RecRes.panicked => EatResult.panicked
  | RecRes.fuelOut => EatResult.fuelOut

/-- The first `i + 1` lookahead characters, as the keyword and boolean loops
accumulate them. -/
def segTo (c : Cursor) (i : Nat) : List Char :=
  (List.range (i + 1)).map c.nth_char

/-- The token spans are contiguous from `p`: each token starts where the
previous one ended (no gaps, no overlaps), with `start ≤ stop`. -/
def chainFromB : Nat → List Token → Bool
  | _, [] => true
  | p, t :: ts => decide (t.start = p) && decide (p ≤ t.stop) && chainFromB t.stop ts

/-- Where the last token of the list ends (`p` when there is none). -/
def endPos : Nat → List Token → Nat
  | p, [] => p
  | _, t :: ts => endPos t.stop ts

/-- Concatenation of the raw text spans (`input[start..stop]`) of the
tokens. -/
def spanConcat (input : List Char) (ts : List Token) : List Char :=
  (ts.map (fun t => (input.drop t.start).take (t.stop - t.start))).flatten

/-- A character outside every recognizer's trigger set (spec §8): not
whitespace, not the comment/operator/identifier/number/string/punctuation
triggers, and (consequently, since every vocabulary key and both boolean
literals start with a lowercase letter) not a keyword or boolean start. -/
def outsideTriggers (ch : Char) : Prop :=
  ch.isWhitespace = false ∧
  ch ≠ '/' ∧
  isSingleOperator ch = false ∧
  ch ≠ 'o' ∧ ch ≠ 'a' ∧
  ch ≠ '_' ∧ ¬('a' ≤ ch ∧ ch ≤ 'z') ∧ ¬('A' ≤ ch ∧ ch ≤ 'Z') ∧
  ¬('0' ≤ ch ∧ ch ≤ '9') ∧
  ch ≠ '"' ∧ ch ≠ '\'' ∧ ch ≠ backtickChar ∧
  ch ≠ ':' ∧
  ch ≠ '[' ∧ ch ≠ ']' ∧ ch ≠ '(' ∧ ch ≠ ')' ∧ ch ≠ '{' ∧ ch ≠ '}' ∧
  ch ≠ ';' ∧ ch ≠ ',' ∧ ch ≠ '\\' ∧ ch ≠ '.' ∧ ch ≠ '$' ∧ ch ≠ '?'

instance (ch : Char) : Decidable (outsideTriggers ch) := by
  unfold outsideTriggers
  infer_instance

/-- Cursor `c2` is a forward in-bounds movement from `c` over the same
buffer. -/
def Progress (c c2 : Cursor) : Prop :=
  c2.input = c.input ∧ c.pos ≤ c2.pos ∧ c2.pos ≤ c2.input.length

/-- A recognizer result moved the cursor forward and in bounds if it
matched. -/
def recProgress {α : Type} (c : Cursor) : RecRes α → Prop
  | RecRes.matched _ c2 => Progress c c2
  | _ => True

/-- A block-comment loop result moved the cursor forward and in bounds if it
completed. -/
def cresProgress (c : Cursor) : CRes → Prop
  | CRes.ok _ c2 => Progress c c2
  | _ => True

/-- A driver result has the produced token spanning from the cursor position
before the call to the position after it, moving forward and in bounds; the
error case also only moves the cursor forward. -/
def eatProgress (c : Cursor) : EatResult → Prop
  | EatResult.tok t c2 => t.start = c.pos ∧ t.stop = c2.pos ∧ Progress c c2
  | EatResult.err _ _ c2 => Progress c c2
  | _ => True

/-! ## Cursor lemmas -/

theorem progress_refl (c : Cursor) (hc : c.pos ≤ c.input.length) : Progress c c :=
  ⟨rfl, Nat.le_refl _, hc⟩

theorem progress_trans {a b c : Cursor} (h1 : Progress a b) (h2 : Progress b c) :
    Progress a c :=
  ⟨h2.1.trans h1.1, h1.2.1.trans h2.2.1, h2.2.2⟩

theorem progress_eat_while (c : Cursor) (p : Char → Bool)
    (hc : c.pos ≤ c.input.length) : Progress c (c.eat_while p).2 := by
  refine ⟨rfl, Nat.le_add_right _ _, ?_⟩
  have h1 : (((c.input.drop c.pos).takeWhile p)).length ≤ (c.input.drop c.pos).length :=
    (List.takeWhile_sublist p).length_le
  have h2 : (c.input.drop c.pos).length = c.input.length - c.pos := List.length_drop _ _
  simp only [Cursor.eat_while]
  omega

theorem progress_bump (c : Cursor) (hc : c.pos ≤ c.input.length) :
    Progress c c.bump := by
  by_cases h : c.pos < c.input.length
  · rw [Cursor.bump, if_pos h]
    exact ⟨rfl, Nat.le_succ _, h⟩
  · rw [Cursor.bump, if_neg h]
    exact progress_refl c hc

theorem progress_peek_inc (c : Cursor) (i : Nat) (hc : c.pos ≤ c.input.length) :
    Progress c (c.peek_inc i) := by
  unfold Cursor.peek_inc
  exact ⟨rfl, by simp; omega, by simp⟩

theorem peek_of_lt (c : Cursor) (h : c.pos < c.input.length) :
    c.peek = (some (c.input.get ⟨c.pos, h⟩), ⟨c.input, c.pos + 1⟩) := by
  unfold Cursor.peek
  rw [dif_pos h]

theorem peek_of_ge (c : Cursor) (h : c.input.length ≤ c.pos) :
    c.peek = (none, c) := by
  unfold Cursor.peek
  rw [dif_neg (by omega)]

theorem first_eq_get (c : Cursor) (h : c.pos < c.input.length) :
    c.first = c.input.get ⟨c.pos, h⟩ := by
  unfold Cursor.first Cursor.nth_char
  simp [List.getD, List.getElem?_eq_getElem h]

theorem first_eq_of_ge (c : Cursor) (h : c.input.length ≤ c.pos) :
    c.first = END_OF_FILE := by
  unfold Cursor.first Cursor.nth_char
  simp [List.getD, List.getElem?_eq_none h]

theorem pos_lt_of_first_ne (c : Cursor) (h : c.first ≠ END_OF_FILE) :
    c.pos < c.input.length := by
  by_contra hlt
  exact h (first_eq_of_ge c (by omega))

theorem progress_peek_snd (c : Cursor) (hc : c.pos ≤ c.input.length) :
    Progress c (c.peek).2 := by
  unfold Cursor.peek
  split
  · exact ⟨rfl, Nat.le_succ _, by simpa using (by assumption : c.pos < c.input.length)⟩
  · exact progress_refl c hc

/-! ## Recognizer progress lemmas -/

theorem prog_eat_whitespace (c : Cursor) (hc : c.pos ≤ c.input.length) :
    recProgress c (eat_whitespace c) := by
  unfold eat_whitespace
  dsimp only
  split
  · exact trivial
  · exact progress_eat_while c _ hc

theorem prog_eat_operator (c : Cursor) (hc : c.pos ≤ c.input.length) :
    recProgress c (eat_operator c) := by
  unfold eat_operator
  repeat' split
  all_goals first
  | exact progress_bump c hc
  | exact progress_peek_inc c _ hc
  | trivial

theorem prog_eat_keyword_loop (c : Cursor) (hc : c.pos ≤ c.input.length) :
    ∀ fuel i seg, recProgress c (eat_keyword_loop c fuel i seg) := by
  intro fuel
  induction fuel with
  | zero => intro i seg; trivial
  | succ fuel ih =>
    intro i seg
    unfold eat_keyword_loop
    dsimp only
    cases hk : Keyword.from_str (seg ++ [c.nth_char i]) with
    | some kw =>
      simp only [hk]
      split
      · exact progress_peek_inc c _ hc
      · exact trivial
    | none =>
      simp only [hk]
      exact ih (i + 1) _

theorem prog_eat_keyword (c : Cursor) (hc : c.pos ≤ c.input.length) :
    recProgress c (eat_keyword c) :=
  prog_eat_keyword_loop c hc _ _ _

theorem prog_eat_boolean_loop (c : Cursor) (hc : c.pos ≤ c.input.length) :
    ∀ fuel i seg, recProgress c (eat_boolean_loop c fuel i seg) := by
  intro fuel
  induction fuel with
  | zero => intro i seg; trivial
  | succ fuel ih =>
    intro i seg
    unfold eat_boolean_loop
    dsimp only
    split
    · exact progress_peek_inc c _ hc
    · exact ih (i + 1) _

theorem prog_eat_boolean (c : Cursor) (hc : c.pos ≤ c.input.length) :
    recProgress c (eat_boolean c) :=
  prog_eat_boolean_loop c hc _ _ _

theorem prog_eat_identifier (c : Cursor) (hc : c.pos ≤ c.input.length) :
    recProgress c (eat_identifier c) := by
  unfold eat_identifier
  split
  · exact progress_eat_while c _ hc
  · trivial

theorem prog_eat_number (c : Cursor) (hc : c.pos ≤ c.input.length) :
    recProgress c (eat_number c) := by
  unfold eat_number
  split
  · exact progress_eat_while c _ hc
  · trivial

theorem prog_eat_string (c : Cursor) (hc : c.pos ≤ c.input.length) :
    recProgress c (eat_string c) := by
  unfold eat_string
  split
  · exact trivial
  · rcases hp : c.peek with ⟨fo, c1⟩
    have hps : Progress c c1 := by
      have h := progress_peek_snd c hc
      rw [hp] at h
      exact h
    cases fo with
    | none => exact trivial
    | some f =>
      dsimp only
      have hc1 : c1.pos ≤ c1.input.length := hps.2.2
      split
      · exact progress_trans hps (progress_eat_while c1 _ hc1)
      · split
        · exact progress_trans hps (progress_eat_while c1 _ hc1)
        · exact trivial

theorem prog_eat_value_reserved (c : Cursor) (hc : c.pos ≤ c.input.length) :
    recProgress c (eat_value_reserved c) := by
  unfold eat_value_reserved
  repeat' split
  all_goals first
  | exact progress_peek_inc c _ hc
  | exact progress_bump c hc
  | trivial

theorem prog_eat_reserved (c : Cursor) (hc : c.pos ≤ c.input.length) :
    recProgress c (eat_reserved c) := by
  unfold eat_reserved
  split
  all_goals first
  | exact progress_refl c hc
  | trivial

theorem prog_block_loop (eatN : Cursor → EatResult)
    (hE : ∀ c, c.pos ≤ c.input.length → eatProgress c (eatN c)) :
    ∀ (k : Nat) (c : Cursor), c.pos ≤ c.input.length →
      cresProgress c (block_comment_loop eatN k c) := by
  intro k
  induction k with
  | zero => intro c hc; exact trivial
  | succ k ih =>
    intro c hc
    unfold block_comment_loop
    rcases hp : c.peek with ⟨fo, c1⟩
    have hps : Progress c c1 := by
      have h := progress_peek_snd c hc
      rw [hp] at h
      exact h
    cases fo with
    | none => exact hps
    | some ch =>
      dsimp only
      split
      · split
        · have hE1 := hE c1 hps.2.2
          cases he : eatN c1 with
          | tok t c2 =>
            rw [he] at hE1
            exact progress_trans hps hE1.2.2
          | err s e c2 =>
            rw [he] at hE1
            exact progress_trans hps hE1
          | panicked => exact trivial
          | fuelOut => exact trivial
        · have hb1 := ih c1 hps.2.2
          cases hb : block_comment_loop eatN k c1 with
          | ok rest c2 =>
            rw [hb] at hb1
            exact progress_trans hps hb1
          | panicked => exact trivial
          | fuelOut => exact trivial
      · have hb1 := ih c1 hps.2.2
        cases hb : block_comment_loop eatN k c1 with
        | ok rest c2 =>
          rw [hb] at hb1
          exact progress_trans hps hb1
        | panicked => exact trivial
        | fuelOut => exact trivial

theorem prog_eat_comment (eatN : Cursor → EatResult)
    (hE : ∀ c, c.pos ≤ c.input.length → eatProgress c (eatN c))
    (c : Cursor) (hc : c.pos ≤ c.input.length) :
    recProgress c (eat_comment eatN c) := by
  unfold eat_comment
  split
  · split
    · dsimp only
      exact progress_eat_while c _ hc
    · split
      · have hb1 := prog_block_loop eatN hE (c.input.length + 1 - c.pos) c hc
        cases hb : block_comment_loop eatN (c.input.length + 1 - c.pos) c with
        | ok cs c2 =>
          rw [hb] at hb1
          exact hb1
        | panicked => exact trivial
        | fuelOut => exact trivial
      · exact trivial
  · exact trivial

theorem eat_progress : ∀ (n : Nat) (c : Cursor), c.pos ≤ c.input.length →
    eatProgress c (eat n c) := by
  intro n
  induction n with
  | zero => intro c hc; exact trivial
  | succ n ih =>
    intro c hc
    unfold eat
    dsimp only
    cases h1 : eat_whitespace c with
    | matched s c2 =>
      have hr := prog_eat_whitespace c hc
      rw [h1] at hr
      exact ⟨rfl, rfl, hr⟩
    | panicked => exact trivial
    | fuelOut => exact trivial
    | noMatch =>
    cases h2 : eat_comment (eat n) c with
    | matched s c2 =>
      have hr := prog_eat_comment (eat n) ih c hc
      rw [h2] at hr
      exact ⟨rfl, rfl, hr⟩
    | panicked => exact trivial
    | fuelOut => exact trivial
    | noMatch =>
    cases h3 : eat_operator c with
    | matched s c2 =>
      have hr := prog_eat_operator c hc
      rw [h3] at hr
      exact ⟨rfl, rfl, hr⟩
    | panicked => exact trivial
    | fuelOut => exact trivial
    | noMatch =>
    cases h4 : eat_keyword c with
    | matched kw c2 =>
      have hr := prog_eat_keyword c hc
      rw [h4] at hr
      exact ⟨rfl, rfl, hr⟩
    | panicked => exact trivial
    | fuelOut => exact trivial
    | noMatch =>
    cases h5 : eat_boolean c with
    | matched s c2 =>
      have hr := prog_eat_boolean c hc
      rw [h5] at hr
      exact ⟨rfl, rfl, hr⟩
    | panicked => exact trivial
    | fuelOut => exact trivial
    | noMatch =>
    cases h6 : eat_identifier c with
    | matched s c2 =>
      have hr := prog_eat_identifier c hc
      rw [h6] at hr
      exact ⟨rfl, rfl, hr⟩
    | panicked => exact trivial
    | fuelOut => exact trivial
    | noMatch =>
    cases h7 : eat_number c with
    | matched nv c2 =>
      have hr := prog_eat_number c hc
      rw [h7] at hr
      exact ⟨rfl, rfl, hr⟩
    | panicked => exact trivial
    | fuelOut => exact trivial
    | noMatch =>
    cases h8 : eat_string c with
    | matched vs c2 =>
      have hr := prog_eat_string c hc
      rw [h8] at hr
      exact ⟨rfl, rfl, progress_trans hr (progress_bump c2 hr.2.2)⟩
    | panicked => exact trivial
    | fuelOut => exact trivial
    | noMatch =>
    cases h9 : eat_value_reserved c with
    | matched ts c2 =>
      have hr := prog_eat_value_reserved c hc
      rw [h9] at hr
      exact ⟨rfl, rfl, hr⟩
    | panicked => exact trivial
    | fuelOut => exact trivial
    | noMatch =>
    cases h10 : eat_reserved c with
    | matched tt c2 =>
      have hr := prog_eat_reserved c hc
      rw [h10] at hr
      exact ⟨rfl, rfl, progress_trans hr (progress_bump c2 hr.2.2)⟩
    | panicked => exact trivial
    | fuelOut => exact trivial
    | noMatch => exact progress_bump c hc

theorem take_append_take (l : List Char) (p q e : Nat) (hpq : p ≤ q) (hqe : q ≤ e) :
    (l.drop p).take (q - p) ++ (l.drop q).take (e - q) = (l.drop p).take (e - p) := by
  have h1 : e - p = (q - p) + (e - q) := by omega
  rw [h1, List.take_add]
  congr 1
  rw [List.drop_drop]
  congr 2
  omega

theorem lexAll_spec : ∀ (fuel : Nat) (c : Cursor), c.pos ≤ c.input.length →
    chainFromB c.pos (lexAll fuel c).1 = true ∧
    c.pos ≤ endPos c.pos (lexAll fuel c).1 ∧
    endPos c.pos (lexAll fuel c).1 ≤ c.input.length ∧
    spanConcat c.input (lexAll fuel c).1 =
      (c.input.drop c.pos).take (endPos c.pos (lexAll fuel c).1 - c.pos) := by
  intro fuel
  induction fuel with
  | zero =>
    intro c hc
    refine ⟨rfl, Nat.le_refl _, hc, ?_⟩
    simp [lexAll, spanConcat, endPos]
  | succ n ih =>
    intro c hc
    have hes := eat_progress (n + 1) c hc
    unfold lexAll
    cases he : eat (n + 1) c with
    | tok t c2 =>
      rw [he] at hes
      obtain ⟨hstart, hstop, hinput, hle, hlen⟩ := hes
      have hc2 : c2.pos ≤ c2.input.length := hlen
      obtain ⟨ihchain, ihlo, ihhi, ihspan⟩ := ih c2 hc2
      dsimp only
      constructor
      · simp only [chainFromB, hstart, hstop]
        simp [ihchain, hle]
      refine ⟨?_, ?_, ?_⟩
      · simp only [endPos, hstop]
        omega
      · simp only [endPos, hstop]
        rw [hinput] at ihhi
        exact ihhi
      · simp only [endPos, hstop, spanConcat, List.map_cons, List.flatten_cons]
        rw [hinput] at ihspan
        have hco : spanConcat c.input (lexAll n c2).1 =
            (c.input.drop c2.pos).take (endPos c2.pos (lexAll n c2).1 - c2.pos) := ihspan
        rw [show (∀ ts : List Token,
            (ts.map (fun t => (c.input.drop t.start).take (t.stop - t.start))).flatten =
            spanConcat c.input ts) from fun ts => rfl]
        rw [hco, hstart]
        rw [hinput] at ihhi
        exact take_append_take c.input c.pos c2.pos _ hle ihlo
    | err s e c2 =>
      dsimp only
      refine ⟨rfl, Nat.le_refl _, hc, ?_⟩
      simp [spanConcat, endPos]
    | panicked =>
      dsimp only
      refine ⟨rfl, Nat.le_refl _, hc, ?_⟩
      simp [spanConcat, endPos]
    | fuelOut =>
      dsimp only
      refine ⟨rfl, Nat.le_refl _, hc, ?_⟩
      simp [spanConcat, endPos]

/-! ## Claim theorems -/

/-- C1 (amended): for every input and any fuel, the tokens produced by
repeatedly calling the lexer are contiguous raw text spans — the first starts
at offset 0, each token's end equals the next token's start (no gaps, no
overlaps) — and concatenating them reconstructs exactly the consumed prefix
of the input, which is the whole input when lexing reaches the end of the
input; an input that stops in a mid-input lexical error reconstructs only
that prefix. -/
theorem claim1_token_spans_tile_input (fuel : Nat) (script : List Char) :
    chainFromB 0 (lexAll fuel ⟨script, 0⟩).1 = true ∧
    spanConcat script (lexAll fuel ⟨script, 0⟩).1 =
      script.take (endPos 0 (lexAll fuel ⟨script, 0⟩).1) ∧
    endPos 0 (lexAll fuel ⟨script, 0⟩).1 ≤ script.length := by
  have h := lexAll_spec fuel ⟨script, 0⟩ (Nat.zero_le _)
  refine ⟨h.1, ?_, h.2.2.1⟩
  have h4 := h.2.2.2
  simpa using h4

/-- C1 (counterexample): the claim as stated — the concatenation of the
lexemes of the tokens produced equals the whole input, for every input —
fails on the input `"@"`: no recognizer matches, the lexer produces no token
at all (only a positional error), so the concatenation is empty. -/
theorem claim1_counterexample :
    (lexList ['@']).1 = [] ∧
    (lexList ['@']).2 = EndRes.errored 0 1 ∧
    spanConcat ['@'] (lexList ['@']).1 ≠ ['@'] := by
  refine ⟨by decide, by decide, by decide⟩

/-- C6: the driver tries the ten recognizers in exactly the order whitespace,
comment, operator, keyword, boolean literal, identifier, number, string,
colon/double-colon, single-character punctuation (the `attempts` list), and
the first recognizer to match wins and determines the produced token: `eat`
equals ordered first-match dispatch over that list. -/
theorem claim6_dispatch_order (n : Nat) (c : Cursor) :
    eat (n + 1) c = dispatchEat (eat n) c := by
  simp only [eat, dispatchEat, attempts, runFirst]
  cases h1 : eat_whitespace c <;> try dsimp only [mapRes, postPeek]
  cases h2 : eat_comment (eat n) c <;> try dsimp only [mapRes, postPeek]
  cases h3 : eat_operator c <;> try dsimp only [mapRes, postPeek]
  cases h4 : eat_keyword c <;> try dsimp only [mapRes, postPeek]
  cases h5 : eat_boolean c <;> try dsimp only [mapRes, postPeek]
  cases h6 : eat_identifier c <;> try dsimp only [mapRes, postPeek]
  cases h7 : eat_number c <;> try dsimp only [mapRes, postPeek]
  cases h8 : eat_string c <;> try dsimp only [mapRes, postPeek]
  cases h9 : eat_value_reserved c <;> try dsimp only [mapRes, postPeek]
  cases h10 : eat_reserved c <;> try dsimp only [mapRes, postPeek]

/-- C2 (code bug): with zero remaining characters, `next()` does not return
the documented no-more-tokens result — every recognizer reports no match, so
the driver falls through to its positional error (`mod.rs` lines 91-99).
On the empty input the very first `next()` is the error `0..0`; after the
single token of the input `"a"` the call at end of input is the error
`1..1`.  The `Ok(None)` branch of `Lexer::next` is unreachable. -/
theorem claim2_eof_yields_error_not_none :
    Lexer.next 5 (Lexer.new []) = EatResult.err 0 0 ⟨[], 0⟩ ∧
    (lexList []).2 = EndRes.errored 0 0 ∧
    (lexList ['a']).1 = [⟨0, 1, TokenType.Identifier, some "a"⟩] ∧
    (lexList ['a']).2 = EndRes.errored 1 1 := by
  refine ⟨by decide, by decide, by decide, by decide⟩

/-- C3 (code bug): `eat_boolean` accumulates at most 4 characters
(`for i in 0..4`), so its segment can never equal the 5-character literal
`false`: the input `"false"` produces no boolean match and is lexed as an
identifier, while `"true"` is matched and consumed. -/
theorem claim3_false_never_matched :
    eat_boolean ⟨['f', 'a', 'l', 's', 'e'], 0⟩ = RecRes.noMatch ∧
    (lexList ['f', 'a', 'l', 's', 'e']).1 =
      [⟨0, 5, TokenType.Identifier, some "false"⟩] ∧
    eat_boolean ⟨['t', 'r', 'u', 'e', ' '], 0⟩ =
      RecRes.matched "true" ⟨['t', 'r', 'u', 'e', ' '], 4⟩ ∧
    (lexList ['t', 'r', 'u', 'e']).1 = [⟨0, 4, TokenType.Boolean, some "true"⟩] := by
  refine ⟨by decide, by decide, by decide, by decide⟩

/-! ## Vocabulary and loop lemmas -/

theorem eof_not_whitespace : END_OF_FILE.isWhitespace = false := by decide

theorem nth_char_lt_of_ne_eof (c : Cursor) (i : Nat)
    (h : c.nth_char i ≠ END_OF_FILE) : c.pos + i < c.input.length := by
  by_contra hge
  apply h
  unfold Cursor.nth_char
  simp [List.getD, List.getElem?_eq_none (by omega : c.input.length ≤ c.pos + i)]

theorem from_str_mem (s : List Char) (kw : Keyword)
    (h : Keyword.from_str s = some kw) : s ∈ kwEntries.map Prod.fst := by
  unfold Keyword.from_str at h
  cases hf : kwEntries.find? (fun e => e.1 = s) with
  | none => rw [hf] at h; simp at h
  | some e =>
    have hkey : e.1 = s := by simpa using List.find?_some hf
    have hmem : e ∈ kwEntries := List.mem_of_find?_eq_some hf
    rw [← hkey]
    exact List.mem_map_of_mem Prod.fst hmem

theorem from_str_single (ch : Char) : Keyword.from_str [ch] = none := by
  cases hf : Keyword.from_str [ch] with
  | none => rfl
  | some kw =>
    exfalso
    have h := from_str_mem _ _ hf
    simp [kwEntries] at h

theorem from_str_head (d : Char) (t : List Char)
    (h1 : d ≠ 'i') (h2 : d ≠ 'e') (h3 : d ≠ 'w') (h4 : d ≠ 'f') (h5 : d ≠ 'r') :
    Keyword.from_str (d :: t) = none := by
  cases hf : Keyword.from_str (d :: t) with
  | none => rfl
  | some kw =>
    exfalso
    have h := from_str_mem _ _ hf
    simp [kwEntries] at h
    rcases h with ⟨h, _⟩ | ⟨h, _⟩ | ⟨h, _⟩ | ⟨h, _⟩ | ⟨h, _⟩ | ⟨h, _⟩ <;> simp_all

theorem from_str_nul (s : List Char) (h : END_OF_FILE ∈ s) :
    Keyword.from_str s = none := by
  cases hf : Keyword.from_str s with
  | none => rfl
  | some kw =>
    exfalso
    have hm := from_str_mem _ _ hf
    simp [kwEntries] at hm
    rcases hm with h1 | h1 | h1 | h1 | h1 | h1 <;>
      (rw [h1] at h; exact absurd h (by decide))

theorem segTo_zero (c : Cursor) : segTo c 0 = [c.nth_char 0] := by
  rfl

theorem segTo_succ (c : Cursor) (i : Nat) :
    segTo c i = (List.range i).map c.nth_char ++ [c.nth_char i] := by
  unfold segTo
  rw [List.range_succ, List.map_append]
  rfl

theorem segTo_get1 (c : Cursor) (j : Nat) (hj : 1 ≤ j) :
    (segTo c j)[1]? = some (c.nth_char 1) := by
  unfold segTo
  rw [List.getElem?_map, List.getElem?_range (by omega : 1 < j + 1)]
  rfl

theorem eat_keyword_loop_none (c : Cursor) : ∀ (fuel i : Nat),
    (∀ j, i ≤ j → j < i + fuel → Keyword.from_str (segTo c j) = none) →
    eat_keyword_loop c fuel i ((List.range i).map c.nth_char) = RecRes.noMatch := by
  intro fuel
  induction fuel with
  | zero => intro i h; rfl
  | succ fuel ih =>
    intro i h
    unfold eat_keyword_loop
    dsimp only
    rw [show (List.range i).map c.nth_char ++ [c.nth_char i] = segTo c i from
      (segTo_succ c i).symm]
    rw [h i (Nat.le_refl i) (by omega)]
    have h2 : ∀ j, i + 1 ≤ j → j < (i + 1) + fuel → Keyword.from_str (segTo c j) = none := by
      intro j hj1 hj2
      exact h j (by omega) (by omega)
    exact ih (i + 1) h2

theorem eat_keyword_none (c : Cursor)
    (h : ∀ j, j < MAX_KEYWORD_LENGTH → Keyword.from_str (segTo c j) = none) :
    eat_keyword c = RecRes.noMatch := by
  unfold eat_keyword
  have := eat_keyword_loop_none c MAX_KEYWORD_LENGTH 0 (by
    intro j hj1 hj2
    exact h j (by omega))
  simpa using this

theorem eat_boolean_loop_none (c : Cursor) : ∀ (fuel i : Nat),
    (∀ j, i ≤ j → j < i + fuel →
      segTo c j ≠ ['t', 'r', 'u', 'e'] ∧ segTo c j ≠ ['f', 'a', 'l', 's', 'e']) →
    eat_boolean_loop c fuel i ((List.range i).map c.nth_char) = RecRes.noMatch := by
  intro fuel
  induction fuel with
  | zero => intro i h; rfl
  | succ fuel ih =>
    intro i h
    unfold eat_boolean_loop
    dsimp only
    rw [show (List.range i).map c.nth_char ++ [c.nth_char i] = segTo c i from
      (segTo_succ c i).symm]
    rw [if_neg]
    · have h2 : ∀ j, i + 1 ≤ j → j < (i + 1) + fuel →
          segTo c j ≠ ['t', 'r', 'u', 'e'] ∧ segTo c j ≠ ['f', 'a', 'l', 's', 'e'] := by
        intro j hj1 hj2
        exact h j (by omega) (by omega)
      exact ih (i + 1) h2
    · intro hor
      have hne := h i (Nat.le_refl i) (by omega)
      rcases hor with he | he
      · exact hne.1 (by simpa [String.ext_iff] using he)
      · exact hne.2 (by simpa [String.ext_iff] using he)

theorem eat_boolean_none (c : Cursor)
    (h : ∀ j, j < 4 →
      segTo c j ≠ ['t', 'r', 'u', 'e'] ∧ segTo c j ≠ ['f', 'a', 'l', 's', 'e']) :
    eat_boolean c = RecRes.noMatch := by
  unfold eat_boolean
  have := eat_boolean_loop_none c 4 0 (by
    intro j hj1 hj2
    exact h j (by omega))
  simpa using this

theorem keyword_loop_matched (c : Cursor) : ∀ (fuel i : Nat) (seg : List Char)
    (kw : Keyword) (c2 : Cursor),
    eat_keyword_loop c fuel i seg = RecRes.matched kw c2 →
    ∃ j, i ≤ j ∧ c2 = c.peek_inc j ∧ (c.nth_char (j + 1)).isWhitespace = true := by
  intro fuel
  induction fuel with
  | zero =>
    intro i seg kw c2 h
    exact absurd h (by simp [eat_keyword_loop])
  | succ fuel ih =>
    intro i seg kw c2 h
    unfold eat_keyword_loop at h
    dsimp only at h
    cases hk : Keyword.from_str (seg ++ [c.nth_char i]) with
    | some kw2 =>
      rw [hk] at h
      dsimp only at h
      by_cases hws : (c.nth_char (i + 1)).isWhitespace = true
      · rw [if_pos hws] at h
        refine ⟨i, Nat.le_refl i, ?_, hws⟩
        cases h
        rfl
      · rw [if_neg hws] at h
        cases h
    | none =>
      rw [hk] at h
      obtain ⟨j, hij, hrest⟩ := ih (i + 1) _ kw c2 h
      exact ⟨j, by omega, hrest⟩

/-- C4: the keyword recognizer accepts a candidate only when the character
immediately after the matched length is whitespace (first conjunct: any
match ends strictly forward of the start and the character at the matched
length from the start is whitespace); when the first vocabulary-matching
prefix is not whitespace-terminated it commits to no-keyword without trying
a longer prefix (second conjunct); in particular `"if "` is lexed as
`Keyword(if)` then `Whitespace`, while `"ifx"` is lexed as the identifier
`ifx` (third and fourth conjuncts). -/
theorem claim4_keyword_whitespace_boundary :
    (∀ (c : Cursor) (kw : Keyword) (c2 : Cursor),
       eat_keyword c = RecRes.matched kw c2 →
       c.pos < c2.pos ∧ (c.nth_char (c2.pos - c.pos)).isWhitespace = true) ∧
    (∀ (c : Cursor) (i : Nat) (kw : Keyword),
       i < MAX_KEYWORD_LENGTH →
       (∀ j, j < i → Keyword.from_str (segTo c j) = none) →
       Keyword.from_str (segTo c i) = some kw →
       (c.nth_char (i + 1)).isWhitespace = false →
       eat_keyword c = RecRes.noMatch) ∧
    (lexList ['i', 'f', ' ']).1 =
      [⟨0, 2, TokenType.Keyword Keyword.If, none⟩,
       ⟨2, 3, TokenType.Whitespace, some " "⟩] ∧
    (lexList ['i', 'f', 'x']).1 = [⟨0, 3, TokenType.Identifier, some "ifx"⟩] := by
  refine ⟨?_, ?_, by decide, by decide⟩
  · intro c kw c2 h
    obtain ⟨j, _, hc2, hws⟩ := keyword_loop_matched c MAX_KEYWORD_LENGTH 0 [] kw c2 h
    have hne : c.nth_char (j + 1) ≠ END_OF_FILE := by
      intro he
      rw [he, eof_not_whitespace] at hws
      cases hws
    have hlt : c.pos + (j + 1) < c.input.length := nth_char_lt_of_ne_eof c (j + 1) hne
    have hpos : c2.pos = c.pos + j + 1 := by
      rw [hc2]
      unfold Cursor.peek_inc
      simp
      omega
    constructor
    · omega
    · rw [show c2.pos - c.pos = j + 1 from by omega]
      exact hws
  · intro c i kw hi hnone hsome hnws
    unfold eat_keyword
    have hloop : ∀ (fuel k : Nat), k + fuel = MAX_KEYWORD_LENGTH → k ≤ i →
        (∀ j, k ≤ j → j < i → Keyword.from_str (segTo c j) = none) →
        eat_keyword_loop c fuel k ((List.range k).map c.nth_char) = RecRes.noMatch := by
      intro fuel
      induction fuel with
      | zero => intro k hk hki _; omega
      | succ fuel ih =>
        intro k hk hki hn
        unfold eat_keyword_loop
        dsimp only
        rw [show (List.range k).map c.nth_char ++ [c.nth_char k] = segTo c k from
          (segTo_succ c k).symm]
        by_cases hik : k = i
        · subst hik
          rw [hsome]
          dsimp only
          rw [if_neg (by simp [hnws])]
        · rw [hn k (Nat.le_refl k) (by omega)]
          exact ih (k + 1) (by omega) (by omega) (fun j hj1 hj2 => hn j (by omega) hj2)
    have := hloop MAX_KEYWORD_LENGTH 0 rfl (Nat.zero_le i) (fun j _ hj => hnone j hj)
    simpa using this

/-- C4 witness: the general conjuncts applied at the concrete inputs
`"if x"` (a match must be whitespace-terminated: position 2 holds a space)
and `"ifx"` (the vocabulary prefix `if` is not whitespace-terminated, so no
keyword). -/
theorem claim4_witness :
    ((Cursor.mk ['i', 'f', ' ', 'x'] 0).pos < 2 ∧
      ((Cursor.mk ['i', 'f', ' ', 'x'] 0).nth_char 2).isWhitespace = true) ∧
    eat_keyword ⟨['i', 'f', 'x'], 0⟩ = RecRes.noMatch := by
  constructor
  · have h := claim4_keyword_whitespace_boundary.1 ⟨['i', 'f', ' ', 'x'], 0⟩
      Keyword.If ⟨['i', 'f', ' ', 'x'], 2⟩ (by decide)
    simpa using h
  · exact claim4_keyword_whitespace_boundary.2.1 ⟨['i', 'f', 'x'], 0⟩ 1 Keyword.If
      (by decide) (by decide) (by decide) (by decide)

theorem bump_of_lt (c : Cursor) (h : c.pos < c.input.length) :
    c.bump = ⟨c.input, c.pos + 1⟩ := by
  rw [Cursor.bump, if_pos h]

theorem bump_first_eq_second (c : Cursor) (h : c.pos < c.input.length) :
    (c.bump).first = c.second := by
  rw [bump_of_lt c h]
  rfl

/-- C5: the input `"/* a * b */"` is lexed as a single Comment token spanning
the whole text (offsets 0 to 11), and in general, inside the block-comment
loop, a consumed character that is not a `*` directly followed by `/` (in
particular an interior `*` whose successor is not `/`) does not terminate
the comment — the loop continues on the rest; the closing `*/` is consumed
as part of the comment token, as the spanning example shows. -/
theorem claim5_block_comment_termination :
    ((lexList ['/', '*', ' ', 'a', ' ', '*', ' ', 'b', ' ', '*', '/']).1.map
        (fun t => (t.start, t.stop, t.kind)) = [(0, 11, TokenType.Comment)]) ∧
    ((lexList ['/', '*', ' ', 'a', ' ', '*', ' ', 'b', ' ', '*', '/']).2 =
        EndRes.errored 11 11) ∧
    (∀ (eatN : Cursor → EatResult) (k : Nat) (c : Cursor),
       c.pos < c.input.length →
       (c.first = '*' → c.second ≠ '/') →
       block_comment_loop eatN (k + 1) c =
         match block_comment_loop eatN k c.bump with
         | CRes.ok cs c2 => CRes.ok (c.first :: cs) c2
         | CRes.panicked => CRes.panicked
         | CRes.fuelOut => CRes.fuelOut) := by
  refine ⟨by decide, by decide, ?_⟩
  intro eatN k c hlt hstar
  conv_lhs => unfold block_comment_loop
  rw [peek_of_lt c hlt]
  dsimp only
  rw [show c.input.get ⟨c.pos, hlt⟩ = c.first from (first_eq_get c hlt).symm]
  rw [show (⟨c.input, c.pos + 1⟩ : Cursor) = c.bump from (bump_of_lt c hlt).symm]
  by_cases h1 : c.first = '*'
  · rw [if_pos h1]
    rw [if_neg (by rw [bump_first_eq_second c hlt]; exact hstar h1)]
    cases hb : block_comment_loop eatN k c.bump <;> rfl
  · rw [if_neg h1]
    cases hb : block_comment_loop eatN k c.bump <;> rfl

/-- C5 witness: the general continuation conjunct applied at the concrete
cursor over `"*a"` (an interior `*` not followed by `/`): the loop consumes
it and continues. -/
theorem claim5_witness :
    block_comment_loop (eat 1) 3 ⟨['*', 'a'], 0⟩ =
      match block_comment_loop (eat 1) 2 (Cursor.bump ⟨['*', 'a'], 0⟩) with
      | CRes.ok cs c2 => CRes.ok ((Cursor.mk ['*', 'a'] 0).first :: cs) c2
      | CRes.panicked => CRes.panicked
      | CRes.fuelOut => CRes.fuelOut := by
  exact claim5_block_comment_termination.2.2 (eat 1) 2 ⟨['*', 'a'], 0⟩
    (by decide) (by decide)

/-- C7: an input consisting solely of one character outside every
recognizer's trigger set is rejected by all ten recognizers, and the driver
consumes that character and returns a lexical error spanning exactly offsets
0 to 1; repeatedly calling the lexer yields no token and that error. -/
theorem claim7_unrecognized_input (ch : Char) (h : outsideTriggers ch) :
    (∀ fuel : Nat, eat (fuel + 1) ⟨[ch], 0⟩ = EatResult.err 0 1 ⟨[ch], 1⟩) ∧
    (lexList [ch]).1 = [] ∧ (lexList [ch]).2 = EndRes.errored 0 1 := by
  obtain ⟨hws, hsl, hop, ho, ha, hus, hlw, hup, hdig, hdq, hsq, hbt, hcol,
    hb1, hb2, hb3, hb4, hb5, hb6, hb7, hb8, hb9, hb10, hb11, hb12⟩ := h
  have hfirst : (Cursor.mk [ch] 0).first = ch := rfl
  have hn0 : (Cursor.mk [ch] 0).nth_char 0 = ch := rfl
  have hnth1 : (Cursor.mk [ch] 0).nth_char 1 = END_OF_FILE := rfl
  have hW : eat_whitespace ⟨[ch], 0⟩ = RecRes.noMatch := by
    unfold eat_whitespace Cursor.eat_while
    simp [List.takeWhile_cons, hws]
    decide
  have hC : ∀ eatN, eat_comment eatN ⟨[ch], 0⟩ = RecRes.noMatch := by
    intro eatN
    unfold eat_comment
    rw [if_neg (by rw [hfirst]; exact hsl)]
  have hO : eat_operator ⟨[ch], 0⟩ = RecRes.noMatch := by
    unfold eat_operator
    rw [hfirst, if_neg (by simp [hop]), if_neg ho, if_neg ha]
  have hK : eat_keyword ⟨[ch], 0⟩ = RecRes.noMatch := by
    apply eat_keyword_none
    intro j hj
    by_cases hj0 : j = 0
    · subst hj0
      rw [segTo_zero, hn0]
      exact from_str_single ch
    · apply from_str_nul
      exact List.mem_map.mpr ⟨1, List.mem_range.mpr (by omega), hnth1⟩
  have hB : eat_boolean ⟨[ch], 0⟩ = RecRes.noMatch := by
    apply eat_boolean_none
    intro j hj
    by_cases hj0 : j = 0
    · subst hj0
      rw [segTo_zero, hn0]
      constructor <;> (intro he; simp at he)
    · have hget := segTo_get1 ⟨[ch], 0⟩ j (by omega)
      rw [hnth1] at hget
      refine ⟨fun he => ?_, fun he => ?_⟩
      · rw [he] at hget
        have hre : 'r' = END_OF_FILE := by simpa using hget
        exact absurd hre (by decide)
      · rw [he] at hget
        have hae : 'a' = END_OF_FILE := by simpa using hget
        exact absurd hae (by decide)
  have hI : eat_identifier ⟨[ch], 0⟩ = RecRes.noMatch := by
    unfold eat_identifier
    rw [if_neg]
    rw [hfirst]
    intro hcon
    rcases hcon with h1 | h1 | h1
    · exact hus h1
    · exact hlw h1
    · exact hup h1
  have hN : eat_number ⟨[ch], 0⟩ = RecRes.noMatch := by
    unfold eat_number
    rw [if_neg (by rw [hfirst]; exact hdig)]
  have hS : eat_string ⟨[ch], 0⟩ = RecRes.noMatch := by
    unfold eat_string
    rw [if_pos (by rw [hfirst]; exact ⟨hdq, hsq, hbt⟩)]
  have hV : eat_value_reserved ⟨[ch], 0⟩ = RecRes.noMatch := by
    unfold eat_value_reserved
    rw [if_neg (by rw [hfirst]; exact hcol)]
  have hR : eat_reserved ⟨[ch], 0⟩ = RecRes.noMatch := by
    unfold eat_reserved
    split <;> simp_all <;> exact absurd hfirst.symm (by assumption)
  have heat : ∀ fuel : Nat, eat (fuel + 1) ⟨[ch], 0⟩ = EatResult.err 0 1 ⟨[ch], 1⟩ := by
    intro fuel
    simp only [eat, hW, hC (eat fuel), hO, hK, hB, hI, hN, hS, hV, hR]
    rfl
  have hlex : lexAll 3 ⟨[ch], 0⟩ = ([], EndRes.errored 0 1) := by
    rw [show (3 : Nat) = 2 + 1 from rfl, lexAll, heat 2]
  refine ⟨heat, ?_, ?_⟩
  · show (lexAll 3 ⟨[ch], 0⟩).1 = []
    rw [hlex]
  · show (lexAll 3 ⟨[ch], 0⟩).2 = EndRes.errored 0 1
    rw [hlex]

/-- C7 witness: `@` is outside every trigger set, and the single-character
input `"@"` yields the error spanning offsets 0 to 1. -/
theorem claim7_witness :
    outsideTriggers '@' ∧ eat 1 ⟨['@'], 0⟩ = EatResult.err 0 1 ⟨['@'], 1⟩ := by
  refine ⟨by decide, ?_⟩
  have h := (claim7_unrecognized_input '@' (by decide)).1 0
  simpa using h

theorem segTo_head (c : Cursor) (j : Nat) :
    segTo c j = c.nth_char 0 :: (List.range j).map (fun k => c.nth_char (Nat.succ k)) := by
  unfold segTo
  rw [List.range_succ_eq_map, List.map_cons, List.map_map]
  rfl

/-- All the recognizers before the string recognizer reject a cursor whose
current character is `d`, for any `d` outside their trigger sets (used for
the string-delimiter claims). -/
theorem pre_string_noMatch (d : Char) (rest : List Char)
    (hws : d.isWhitespace = false) (hsl : d ≠ '/') (hop : isSingleOperator d = false)
    (ho : d ≠ 'o') (ha : d ≠ 'a')
    (hkw : d ≠ 'i' ∧ d ≠ 'e' ∧ d ≠ 'w' ∧ d ≠ 'f' ∧ d ≠ 'r')
    (hbool : d ≠ 't')
    (hid : d ≠ '_' ∧ ¬('a' ≤ d ∧ d ≤ 'z') ∧ ¬('A' ≤ d ∧ d ≤ 'Z'))
    (hdig : ¬('0' ≤ d ∧ d ≤ '9')) :
    eat_whitespace ⟨d :: rest, 0⟩ = RecRes.noMatch ∧
    (∀ eatN, eat_comment eatN ⟨d :: rest, 0⟩ = RecRes.noMatch) ∧
    eat_operator ⟨d :: rest, 0⟩ = RecRes.noMatch ∧
    eat_keyword ⟨d :: rest, 0⟩ = RecRes.noMatch ∧
    eat_boolean ⟨d :: rest, 0⟩ = RecRes.noMatch ∧
    eat_identifier ⟨d :: rest, 0⟩ = RecRes.noMatch ∧
    eat_number ⟨d :: rest, 0⟩ = RecRes.noMatch := by
  have hfirst : (Cursor.mk (d :: rest) 0).first = d := rfl
  have hn0 : (Cursor.mk (d :: rest) 0).nth_char 0 = d := rfl
  refine ⟨?_, ?_, ?_, ?_, ?_, ?_, ?_⟩
  · unfold eat_whitespace Cursor.eat_while
    rw [List.drop_zero, List.takeWhile_cons_of_neg (by simp [hws])]
    rfl
  · intro eatN
    unfold eat_comment
    rw [if_neg (by rw [hfirst]; exact hsl)]
  · unfold eat_operator
    rw [hfirst, if_neg (by simp [hop]), if_neg ho, if_neg ha]
  · apply eat_keyword_none
    intro j hj
    rw [segTo_head, hn0]
    exact from_str_head d _ hkw.1 hkw.2.1 hkw.2.2.1 hkw.2.2.2.1 hkw.2.2.2.2
  · apply eat_boolean_none
    intro j hj
    rw [segTo_head, hn0]
    constructor <;> intro he
    · have hd : d = 't' := by simpa using congrArg (fun l => l.headI) he
      exact hbool hd
    · have hd : d = 'f' := by simpa using congrArg (fun l => l.headI) he
      exact hkw.2.2.2.1 hd
  · unfold eat_identifier
    rw [if_neg]
    rw [hfirst]
    intro hcon
    rcases hcon with h1 | h1 | h1
    · exact hid.1 h1
    · exact hid.2.1 h1
    · exact hid.2.2 h1
  · unfold eat_number
    rw [if_neg (by rw [hfirst]; exact hdig)]

theorem peek_some_parts (c : Cursor) (f : Char) (c1 : Cursor)
    (h : c.peek = (some f, c1)) : f = c.first ∧ c1 = ⟨c.input, c.pos + 1⟩ := by
  unfold Cursor.peek at h
  split at h
  · injection h with h1 h2
    injection h1 with h1
    exact ⟨h1.symm.trans (first_eq_get c (by assumption)).symm, h2.symm⟩
  · injection h with h1 h2
    cases h1

/-- C8 (counterexample): the claim — the delimiter-classification assertion
is never reached for any input beginning with a quote character — fails on
the backtick: the input consisting of a single backtick passes the entry
check, is consumed by `peek()`, and hits the `unreachable!()` arm, so the
whole lexer panics. -/
theorem claim8_counterexample :
    eat_string ⟨[backtickChar], 0⟩ = RecRes.panicked ∧
    eat 1 ⟨[backtickChar], 0⟩ = EatResult.panicked ∧
    (lexList [backtickChar]).2 = EndRes.panicked := by
  refine ⟨by decide, by decide, by decide⟩

/-- C8 (amended): for an input whose first character is `"` or `'`, the
String recognizer records the delimiter kind (`Double` or `Single`) and
consumes a run of characters up to (not including) the matching closing
delimiter without failing; for an input whose first character is a backtick
the entry check passes but the delimiter-classification match falls into its
`unreachable!()` arm, so the recognizer panics — that branch is reachable. -/
theorem claim8_string_delimiters (c : Cursor) :
    (c.first = '"' →
      eat_string c = RecRes.matched
        (StringType.Double,
          String.mk ((c.input.drop (c.pos + 1)).takeWhile (fun x => x != '"')))
        ⟨c.input,
          c.pos + 1 + ((c.input.drop (c.pos + 1)).takeWhile (fun x => x != '"')).length⟩) ∧
    (c.first = '\'' →
      eat_string c = RecRes.matched
        (StringType.Single,
          String.mk ((c.input.drop (c.pos + 1)).takeWhile (fun x => x != '\'')))
        ⟨c.input,
          c.pos + 1 + ((c.input.drop (c.pos + 1)).takeWhile (fun x => x != '\'')).length⟩) ∧
    (c.first = backtickChar → eat_string c = RecRes.panicked) := by
  refine ⟨?_, ?_, ?_⟩
  · intro h
    have hlt : c.pos < c.input.length := pos_lt_of_first_ne c (by rw [h]; decide)
    unfold eat_string
    rw [if_neg (by intro hcon; exact hcon.1 h)]
    rw [peek_of_lt c hlt]
    dsimp only
    rw [show c.input.get ⟨c.pos, hlt⟩ = c.first from (first_eq_get c hlt).symm, h]
    rw [if_pos rfl]
    rfl
  · intro h
    have hlt : c.pos < c.input.length := pos_lt_of_first_ne c (by rw [h]; decide)
    unfold eat_string
    rw [if_neg (by intro hcon; exact hcon.2.1 h)]
    rw [peek_of_lt c hlt]
    dsimp only
    rw [show c.input.get ⟨c.pos, hlt⟩ = c.first from (first_eq_get c hlt).symm, h]
    rw [if_neg (by decide), if_pos rfl]
    rfl
  · intro h
    have hlt : c.pos < c.input.length := pos_lt_of_first_ne c (by rw [h]; decide)
    unfold eat_string
    rw [if_neg (by intro hcon; exact hcon.2.2 h)]
    rw [peek_of_lt c hlt]
    dsimp only
    rw [show c.input.get ⟨c.pos, hlt⟩ = c.first from (first_eq_get c hlt).symm, h]
    rw [if_neg (by decide), if_neg (by decide)]

/-- C8 witness: the amended theorem applied at concrete inputs — a closed
double-quoted string, a single-quoted string, and the panicking backtick. -/
theorem claim8_witness :
    eat_string ⟨['"', 'a', '"'], 0⟩ =
      RecRes.matched (StringType.Double, "a") ⟨['"', 'a', '"'], 2⟩ ∧
    eat_string ⟨['\'', 'a'], 0⟩ =
      RecRes.matched (StringType.Single, "a") ⟨['\'', 'a'], 2⟩ ∧
    eat_string ⟨[backtickChar], 0⟩ = RecRes.panicked := by
  refine ⟨?_, ?_, ?_⟩
  · have h := (claim8_string_delimiters ⟨['"', 'a', '"'], 0⟩).1 rfl
    rw [h]
    rfl
  · have h := (claim8_string_delimiters ⟨['\'', 'a'], 0⟩).2.1 rfl
    rw [h]
    rfl
  · exact (claim8_string_delimiters ⟨[backtickChar], 0⟩).2.2 rfl

/-- C9: the operator recognizer matches `or` and `and` by pure character
lookahead with no boundary check on the following character: every input
beginning with the letters `or` (respectively `and`) — whatever follows —
produces an Operator token with lexeme `or` (`and`) rather than a single
Identifier token; in particular `"order"` is lexed with an Operator token
for the leading letters before the rest of the word. -/
theorem claim9_or_and_pure_lookahead :
    (∀ rest : List Char, ∃ t c2,
       eat 1 ⟨'o' :: 'r' :: rest, 0⟩ = EatResult.tok t c2 ∧
       t.kind = TokenType.Operator ∧ t.value = some "or" ∧ t.start = 0) ∧
    (∀ rest : List Char, ∃ t c2,
       eat 1 ⟨'a' :: 'n' :: 'd' :: rest, 0⟩ = EatResult.tok t c2 ∧
       t.kind = TokenType.Operator ∧ t.value = some "and" ∧ t.start = 0) ∧
    ((lexList ['o', 'r', 'd', 'e', 'r']).1.map (fun t => (t.kind, t.value)) =
      [(TokenType.Operator, some "or"), (TokenType.Identifier, some "er")]) := by
  refine ⟨?_, ?_, by decide⟩
  · intro rest
    have hW : eat_whitespace ⟨'o' :: 'r' :: rest, 0⟩ = RecRes.noMatch := by
      unfold eat_whitespace Cursor.eat_while
      rw [List.drop_zero, List.takeWhile_cons_of_neg (by decide)]
      rfl
    have hC : eat_comment (eat 0) ⟨'o' :: 'r' :: rest, 0⟩ = RecRes.noMatch := by
      unfold eat_comment
      rw [if_neg (by intro hcon; cases hcon)]
    have hO : eat_operator ⟨'o' :: 'r' :: rest, 0⟩ =
        RecRes.matched "or" ((Cursor.mk ('o' :: 'r' :: rest) 0).peek_inc 2) := by
      unfold eat_operator
      rw [show (Cursor.mk ('o' :: 'r' :: rest) 0).first = 'o' from rfl]
      rw [if_neg (by decide), if_pos rfl]
      rw [if_pos (show (Cursor.mk ('o' :: 'r' :: rest) 0).nth_char 1 = 'r' from rfl)]
    refine ⟨⟨0, ((Cursor.mk ('o' :: 'r' :: rest) 0).peek_inc 2).pos,
      TokenType.Operator, some "or"⟩,
      (Cursor.mk ('o' :: 'r' :: rest) 0).peek_inc 2, ?_, rfl, rfl, rfl⟩
    simp only [eat, hW, hC, hO]
    rfl
  · intro rest
    have hW : eat_whitespace ⟨'a' :: 'n' :: 'd' :: rest, 0⟩ = RecRes.noMatch := by
      unfold eat_whitespace Cursor.eat_while
      rw [List.drop_zero, List.takeWhile_cons_of_neg (by decide)]
      rfl
    have hC : eat_comment (eat 0) ⟨'a' :: 'n' :: 'd' :: rest, 0⟩ = RecRes.noMatch := by
      unfold eat_comment
      rw [if_neg (by intro hcon; cases hcon)]
    have hO : eat_operator ⟨'a' :: 'n' :: 'd' :: rest, 0⟩ =
        RecRes.matched "and" ((Cursor.mk ('a' :: 'n' :: 'd' :: rest) 0).peek_inc 3) := by
      unfold eat_operator
      rw [show (Cursor.mk ('a' :: 'n' :: 'd' :: rest) 0).first = 'a' from rfl]
      rw [if_neg (by decide), if_neg (by decide), if_pos rfl]
      rw [if_pos (show (Cursor.mk ('a' :: 'n' :: 'd' :: rest) 0).nth_char 1 = 'n' ∧
        (Cursor.mk ('a' :: 'n' :: 'd' :: rest) 0).nth_char 2 = 'd' from ⟨rfl, rfl⟩)]
    refine ⟨⟨0, ((Cursor.mk ('a' :: 'n' :: 'd' :: rest) 0).peek_inc 3).pos,
      TokenType.Operator, some "and"⟩,
      (Cursor.mk ('a' :: 'n' :: 'd' :: rest) 0).peek_inc 3, ?_, rfl, rfl, rfl⟩
    simp only [eat, hW, hC, hO]
    rfl

/-- C10: every string match's lexeme contains neither the opening nor the
closing delimiter (both are the first character of the input at the match:
the opener is consumed by `peek()` before content collection and the content
run stops strictly before any character equal to the delimiter); and when
the input ends before a matching closing delimiter appears, the recognizer
still reports a match and the driver produces a string token consuming the
remainder of the input — not an error. -/
theorem claim10_string_lexeme_and_unterminated :
    (∀ (c : Cursor) (v : StringType) (s : String) (c2 : Cursor),
       eat_string c = RecRes.matched (v, s) c2 → c.first ∉ s.data) ∧
    (∀ (d : Char) (rest : List Char), (d = '"' ∨ d = '\'') → d ∉ rest →
       ∃ t c2, eat 1 ⟨d :: rest, 0⟩ = EatResult.tok t c2 ∧
         t.kind = TokenType.StringLit
           (if d = '"' then StringType.Double else StringType.Single) ∧
         t.value = some (String.mk rest) ∧
         t.start = 0 ∧ t.stop = rest.length + 1 ∧ c2.pos = rest.length + 1) := by
  constructor
  · intro c v s c2 h
    unfold eat_string at h
    split at h
    · cases h
    · rcases hp : c.peek with ⟨fo, c1⟩
      rw [hp] at h
      obtain hfo : fo = fo := rfl
      cases fo with
      | none => cases h
      | some f =>
        have hf : f = c.first := (peek_some_parts c f c1 hp).1
        dsimp only at h
        split at h
        · injection h with h1 h2
          injection h1 with h1a h1b
          intro hmem
          rw [← h1b] at hmem
          have hx := List.mem_takeWhile_imp hmem
          rw [← hf] at hx
          simp at hx
        · split at h
          · injection h with h1 h2
            injection h1 with h1a h1b
            intro hmem
            rw [← h1b] at hmem
            have hx := List.mem_takeWhile_imp hmem
            rw [← hf] at hx
            simp at hx
          · cases h
  · intro d rest hd hnot
    have hpre := pre_string_noMatch d rest
      (by rcases hd with h | h <;> subst h <;> decide)
      (by rcases hd with h | h <;> subst h <;> decide)
      (by rcases hd with h | h <;> subst h <;> decide)
      (by rcases hd with h | h <;> subst h <;> decide)
      (by rcases hd with h | h <;> subst h <;> decide)
      (by rcases hd with h | h <;> subst h <;> decide)
      (by rcases hd with h | h <;> subst h <;> decide)
      (by rcases hd with h | h <;> subst h <;> decide)
      (by rcases hd with h | h <;> subst h <;> decide)
    obtain ⟨hW, hC, hO, hK, hB, hI, hN⟩ := hpre
    have hfst : (Cursor.mk (d :: rest) 0).first = d := rfl
    have htake : rest.takeWhile (fun x => x != d) = rest := by
      apply List.takeWhile_eq_self_iff.mpr
      intro x hx
      simp
      intro hxd
      exact hnot (hxd ▸ hx)
    have hS : eat_string ⟨d :: rest, 0⟩ = RecRes.matched
        ((if d = '"' then StringType.Double else StringType.Single),
          String.mk rest) ⟨d :: rest, rest.length + 1⟩ := by
      rcases hd with h | h <;> subst h
      · have h8 := (claim8_string_delimiters ⟨'"' :: rest, 0⟩).1 rfl
        rw [h8]
        simp only [List.drop_succ_cons, List.drop_zero] at *
        rw [htake]
        simp +decide [Nat.add_comm]
      · have h8 := (claim8_string_delimiters ⟨'\'' :: rest, 0⟩).2.1 rfl
        rw [h8]
        simp only [List.drop_succ_cons, List.drop_zero] at *
        rw [htake]
        simp +decide [Nat.add_comm]
    refine ⟨⟨0, rest.length + 1,
      TokenType.StringLit (if d = '"' then StringType.Double else StringType.Single),
      some (String.mk rest)⟩, ⟨d :: rest, rest.length + 1⟩, ?_, rfl, rfl, rfl, rfl, rfl⟩
    have hbump : (Cursor.mk (d :: rest) (rest.length + 1)).bump =
        ⟨d :: rest, rest.length + 1⟩ := by
      rw [Cursor.bump, if_neg (by simp)]
    simp only [eat, hW, hC, hO, hK, hB, hI, hN, hS]
    rw [hbump]
    rfl

/-- C10 witness: the lexeme conjunct applied at the concrete single-quoted
input `"'ab"` and the unterminated conjunct applied at delimiter `'` with
remainder `ab` (no closing quote): a string token consuming the whole
input. -/
theorem claim10_witness :
    (Cursor.mk ['\'', 'a', 'b'] 0).first ∉ ("ab" : String).data ∧
    (∃ t c2, eat 1 ⟨'\'' :: ['a', 'b'], 0⟩ = EatResult.tok t c2 ∧
       t.kind = TokenType.StringLit
         (if ('\'' : Char) = '"' then StringType.Double else StringType.Single) ∧
       t.value = some (String.mk ['a', 'b']) ∧
       t.start = 0 ∧ t.stop = ['a', 'b'].length + 1 ∧
       c2.pos = ['a', 'b'].length + 1) := by
  constructor
  · exact claim10_string_lexeme_and_unterminated.1 ⟨['\'', 'a', 'b'], 0⟩
      StringType.Single "ab" ⟨['\'', 'a', 'b'], 3⟩ (by decide)
  · exact claim10_string_lexeme_and_unterminated.2 '\'' ['a', 'b']
      (Or.inr rfl) (by decide)
